import Mathlib

/-!
Verification of the actor-style coordinator of the `tardy` repository
(`src/imp.rs`, constants from `src/app.rs`).

The embedding is a shallow one: each Rust method becomes a pure Lean
function.  Channel effects are made explicit — every mpsc/oneshot send a
method performs is collected into a `List Hijinks` output, and the outcome
of each awaited operation (mpsc send, oneshot receive, event-loop proxy
send) is supplied as an explicit `Arrive`/`Bool` argument, mirroring the
fact that in the source these outcomes are produced by the runtime.
Randome draws (`rand::random::<u16>()`, coin flips) are likewise supplied
as explicit arguments.
-/

namespace Tardy

/-- `Frame` from `src/app.rs`: an opaque placement descriptor
`{ monitor, position, size }`.  The monitor handle and the physical
position/size components are modelled as natural numbers; the coordinator
never inspects them, it only moves frames around. -/
structure Frame where
  monitor : Nat
  posX : Nat
  posY : Nat
  width : Nat
  height : Nat
deriving DecidableEq, Repr, Inhabited

/-- Modelled from the spec (the `arrive` module named in `src/lib.rs` is not
under `src/`): the error type `Blame` behind the `Arrive<T>` result alias.
`src/imp.rs` documents the `Io` and `Csv` cases ("Will `Blame::Io` if the
file path is bad, and will `Blame::Csv` if the contents fail to
deserialize") and the `?` conversions require cases for an mpsc send error,
a oneshot receive error and a closed event-loop proxy.  The file-open case
is called `openFailed` here. -/
inductive Blame where
  /-- `Blame::Io`: the quotes file could not be opened. -/
  | openFailed
  /-- `Blame::Csv`: a csv row failed to deserialize. -/
  | csv
  /-- conversion of `mpsc::error::SendError<Hijinks>`. -/
  | sendHijinks
  /-- conversion of `oneshot::error::RecvError`. -/
  | recvFrames
  /-- conversion of `winit::event_loop::EventLoopClosed<Hijinks>`. -/
  | eventLoopClosed
deriving DecidableEq, Repr

/-- Modelled from the spec: `Arrive<T> = Result<T, Blame>` from the `arrive`
module named in `src/lib.rs` (not under `src/`). -/
abbrev Arrive (α : Type) : Type := Except Blame α

/-- `Act` from the `act` module named in `src/lib.rs` (not under `src/`);
the two variants that participate in `Hijinks` per the `user_event`
documentation in `src/app.rs` (`Act::NewWindow`, `Act::CloseWindow`), plus
a case standing for the remaining key-command variants ("No further
variants of `Act` participate in `Hijinks`"). -/
inductive Act where
  | NewWindow
  | CloseWindow
  | other
deriving DecidableEq, Repr

/-- `Quote` from `src/imp.rs`: `{ author : Option<String>, quote : String }`. -/
structure Quote where
  author : Option String
  quote : String
deriving DecidableEq, Repr, Inhabited

/-- The apostrophe character, used by `Quote::graffiti` and by the window
title format in `Imp::instigate`. -/
def tick : String := String.singleton (Char.ofNat 39)

/-- `Quote::graffiti` from `src/imp.rs`: formats the quote for display,
replacing a missing author attribution with `Unknown`. -/
def Quote.graffiti (q : Quote) : String :=
  match q.author with
  | some author => tick ++ q.quote ++ tick ++ " - " ++ author
  | none => tick ++ q.quote ++ tick ++ " - Unknown"

/-- `Quotes` from `src/imp.rs`: a newtype wrapper around `Vec<Quote>`. -/
structure Quotes where
  val : List Quote
deriving DecidableEq, Repr, Inhabited

/-- `Meddle` from `src/imp.rs`: `{ act, frame : Option<Frame>, title }`. -/
structure Meddle where
  act : Act
  frame : Option Frame
  title : String
deriving DecidableEq, Repr

/-- `Hijinks` from `src/imp.rs`.  The `Filch` variant holds a `Filch`
struct whose only field is a `oneshot::Sender<Vec<Frame>>`; the one-shot
reply channel is modelled by an identifier. -/
inductive Hijinks where
  | Meddle : Meddle → Hijinks
  | Vandalize : String → Hijinks
  | Filch : Nat → Hijinks
deriving DecidableEq, Repr

/-- `FRAME_POOL` from `src/app.rs`: the number of starting frames given to
the `ImpKing`. -/
def FRAME_POOL : Nat := 100

/-- `FRAMES` from `src/app.rs`: the number of frames given to each `Imp`. -/
def FRAMES : Nat := 10

/-- `Imp` from `src/imp.rs`.  The `tx : mpsc::Sender<Hijinks>` field is
not part of the state: sends on it are collected as explicit outputs. -/
structure Imp where
  frames : List Frame
  name : String
  quotes : Quotes
deriving DecidableEq, Repr

/-- The number of milliseconds `Imp::pause` sleeps, as a function of the
raw random draw: the source draws `pause : u16 = rand::random()` and sleeps
`Duration::from_millis(pause as u64)`; the `u16` draw is the raw entropy
reduced modulo 2^16. -/
def pauseMillis (draw : Nat) : Nat := draw % 65536

/-- The window title built in `Imp::instigate`:
`format!("{}'s Window", self.name())`. -/
def windowTitle (name : String) : String := name ++ tick ++ "s Window"

/-- `Imp::filch` from `src/imp.rs`.  The imp creates a fresh one-shot
channel, sends `Hijinks::Filch` on the outbound handle **discarding the
send result** (`let _ = self.tx.send(hijinks).await;`), then awaits the
receiver (`let frames = rx.await?;`) and on success replaces its `frames`
field with the received vector.  `sendRes` is the (discarded) outcome of
the mpsc send, `reply` the outcome of awaiting the one-shot receiver.
Output: the imp after the call, the messages sent, and the returned
`Arrive<()>`. -/
def filch (imp : Imp) (sendRes : Arrive Unit) (reply : Arrive (List Frame)) :
    Imp × List Hijinks × Arrive Unit :=
  let _ := sendRes
  match reply with
  | Except.ok frames => ({ imp with frames := frames }, [Hijinks.Filch 0], Except.ok ())
  | Except.error e => (imp, [Hijinks.Filch 0], Except.error e)

/-- `Imp::instigate` from `src/imp.rs`: `let frame = self.frames.pop();`
(`Vec::pop` removes the last element), then if a frame is present build
`Meddle::new(Act::NewWindow, frame, format!("{}'s Window", self.name()))`
and send it (`?` propagates a send failure), otherwise call
`self.filch().await?`. -/
def instigate (imp : Imp) (sendRes : Arrive Unit) (filchSendRes : Arrive Unit)
    (filchReply : Arrive (List Frame)) : Imp × List Hijinks × Arrive Unit :=
  let frame := imp.frames.getLast?
  let imp2 : Imp := { imp with frames := imp.frames.dropLast }
  match frame with
  | some f =>
    let m : Meddle := ⟨Act.NewWindow, some f, windowTitle imp2.name⟩
    (imp2, [Hijinks.Meddle m], sendRes)
  | none => filch imp2 filchSendRes filchReply

/-- `Imp::spoil` from `src/imp.rs`: builds
`Meddle::new(Act::CloseWindow, None, self.name().clone())` and sends it,
propagating a send failure. -/
def spoil (imp : Imp) (sendRes : Arrive Unit) : Imp × List Hijinks × Arrive Unit :=
  let m : Meddle := ⟨Act.CloseWindow, none, imp.name⟩
  (imp, [Hijinks.Meddle m], sendRes)

/-- The rejection-sampling loop of `Imp::vandalize` from `src/imp.rs`:
repeatedly draw `trial : u16 = rand::random()`, cast to `usize`, and accept
the first draw with `trial < self.quotes.len()`.  `draws` is the (finite
prefix of the) stream of raw random draws, each reduced modulo 2^16 to a
`u16`; `none` means no draw of the prefix was accepted, i.e. the loop is
still running. -/
def vandalIdx (len : Nat) : List Nat → Option Nat
  | [] => none
  | d :: rest =>
    let trial := d % 65536
    if trial < len then some trial else vandalIdx len rest

/-- `Imp::vandalize` from `src/imp.rs`: run the rejection loop to pick an
index, then send `Hijinks::Vandalize(format!("{} says: {}", self.name,
self.quotes[idx]))` (the `Display` of `Quote` is `graffiti`), propagating a
send failure.  `none` models the case where the rejection loop never
accepts (it diverges and nothing is ever sent). -/
def vandalize (imp : Imp) (draws : List Nat) (sendRes : Arrive Unit) :
    Option (List Hijinks × Arrive Unit) :=
  match vandalIdx imp.quotes.val.length draws with
  | none => none
  | some idx =>
    let q := imp.quotes.val.getD idx default
    some ([Hijinks.Vandalize (imp.name ++ " says: " ++ q.graffiti)], sendRes)

/-- The environment of one iteration of the `Imp::hijinks` loop: the two
coin flips (`rand::random()` in `hijinks` and in `meddle`), the outcome of
the one mpsc send the iteration awaits with `?`, the (discarded) outcome of
a `filch` send, the outcome of a `filch` one-shot receive, and the raw
draws feeding the `vandalize` rejection loop. -/
structure Spin where
  coin : Bool
  meddleCoin : Bool
  sendRes : Arrive Unit
  filchSendRes : Arrive Unit
  filchReply : Arrive (List Frame)
  draws : List Nat
deriving Repr

/-- `Imp::meddle` from `src/imp.rs`: coin flip between `instigate` and
`spoil` (each awaited with `?`), then `Self::pause().await` (which always
succeeds and has no state effect) and `Ok(())`. -/
def meddle (imp : Imp) (s : Spin) : Imp × List Hijinks × Arrive Unit :=
  if s.meddleCoin then instigate imp s.sendRes s.filchSendRes s.filchReply
  else spoil imp s.sendRes

/-- One iteration of the body of the `loop` in `Imp::hijinks`: coin flip
between `meddle` and `vandalize`, each awaited with `?`.  `none` models an
iteration that never finishes because the `vandalize` rejection loop never
accepts. -/
def hijinksStep (imp : Imp) (s : Spin) : Option (Imp × List Hijinks × Arrive Unit) :=
  if s.coin then some (meddle imp s)
  else
    match vandalize imp s.draws s.sendRes with
    | none => none
    | some (sent, r) => some (imp, sent, r)

/-- `Imp::hijinks` from `src/imp.rs`: `loop { if rand::random() {
self.meddle().await?; } else { self.vandalize().await?; } }`.  The loop
has no `break` and no `return`: it leaves the loop only through the `?`
operator.  `env` supplies the environment of each iteration and `fuel`
bounds how many iterations we observe; `none` means the loop is still
running (or stuck inside `vandalize`) after `fuel` iterations, `some r`
means the method returned with result `r` within `fuel` iterations. -/
def hijinks : Imp → (Nat → Spin) → Nat → Option (Arrive Unit)
  | _, _, 0 => none
  | imp, env, Nat.succ n =>
    match hijinksStep imp (env 0) with
    | none => none
    | some (_, _, Except.error e) => some (Except.error e)
    | some (imp2, _, Except.ok _) => hijinks imp2 (fun i => env (i + 1)) n

/-- The exit test of the task body spawned in `ImpKing::spawn_imps`:
`loop { if imp.hijinks().await.is_err() { break; } }` — the task breaks
out (exits, no retry) exactly when `hijinks` returned an error. -/
def impTaskBreaks (r : Arrive Unit) : Bool :=
  match r with
  | Except.error _ => true
  | Except.ok _ => false

/-- `ImpKing` from `src/imp.rs`.  The `proxy`, `rx` and `tx` fields are
channel handles; their effects are modelled explicitly (`listen` takes the
messages the receiver will yield and returns the events pushed through the
proxy), so the state retained here is the frame pool and the quotes. -/
structure ImpKing where
  frames : List Frame
  quotes : Quotes
deriving DecidableEq, Repr

/-- The inner `while frames.len() < FRAMES` loop of `ImpKing::imps`: pop
frames one at a time from the end of `drain` (`Vec::pop`) and push them
into the slice under construction; `none` models the `return Vec::new()`
taken when `drain` runs out.  On success it returns the slice (in push
order) and the remaining drain. -/
def takeFrames : Nat → List Frame → Option (List Frame × List Frame)
  | 0, drain => some ([], drain)
  | Nat.succ n, drain =>
    match drain.getLast? with
    | some value =>
      match takeFrames n drain.dropLast with
      | some (frames, rest) => some (value :: frames, rest)
      | none => none
    | none => none

/-- The `for name in names` loop of `ImpKing::imps`: for each generated
name, fill a fresh slice of `FRAMES` frames from `frame_drain`; if the
drain is exhausted the whole call returns the empty vector (discarding any
imps already built), otherwise push `Imp::new(frames, name,
self.quotes.clone(), self.tx.clone())`. -/
def impsLoop (quotes : Quotes) : List String → List Frame → List Imp → List Imp
  | [], _, acc => acc
  | name :: rest, drain, acc =>
    match takeFrames FRAMES drain with
    | some (frames, drain2) => impsLoop quotes rest drain2 (acc ++ [⟨frames, name, quotes⟩])
    | none => []

/-- `ImpKing::imps` from `src/imp.rs`.  The method takes `&self` and begins
with `let mut frame_drain = self.frames.clone();` — it drains a **clone**
of the pool, so the `ImpKing` (its `frames` field included) is returned
unchanged as the post-call state.  `names` models the `count` display
names produced by `names::Generator` (`count = names.length`). -/
def imps (king : ImpKing) (names : List String) : ImpKing × List Imp :=
  (king, impsLoop king.quotes names king.frames [])

/-- The observable outcome of `ImpKing::listen`: the supervisor state when
the loop returns, the events delivered to the event-loop proxy, every
sequence of frames sent on some request's one-shot reply channel, and the
returned `Arrive<()>`. -/
structure ListenOut where
  king : ImpKing
  forwarded : List Hijinks
  replies : List (List Frame)
  result : Arrive Unit

/-- `ImpKing::listen` from `src/imp.rs`:
`while let Some(hijinks) = self.rx.recv().await {
  self.proxy.send_event(hijinks)?; } Ok(())`.
`inbox` is the sequence of messages the receiver yields before the channel
closes; `oks` gives the outcome of each successive `proxy.send_event` call
(exhausted entries default to success).  The loop body only receives and
forwards: it never touches `self.frames` and contains no send on any
one-shot reply channel, so no equation below appends to `replies`. -/
def listen (king : ImpKing) : List Hijinks → List Bool → ListenOut
  | [], _ => ⟨king, [], [], Except.ok ()⟩
  | h :: rest, oks =>
    if oks.headD true then
      let out := listen king rest oks.tail
      { out with forwarded := h :: out.forwarded }
    else ⟨king, [], [], Except.error Blame.eventLoopClosed⟩

/-- The per-row results the csv reader's `deserialize` iterator yields for
one file: each row either deserializes into a `Quote` or fails with a csv
error. -/
abbrev RowResults : Type := List (Arrive Quote)

/-- The `for result in rdr.deserialize()` loop of `Quotes::from_path`: push
each `Ok(quote)` into the vector, emit a warning and continue on `Err`. -/
def readRows : RowResults → List Quote
  | [] => []
  | Except.ok q :: rest => q :: readRows rest
  | Except.error _ :: rest => readRows rest

/-- The number of `tracing::warn!` calls the row loop of
`Quotes::from_path` emits: one per row that fails to deserialize. -/
def rowWarnings : RowResults → Nat
  | [] => 0
  | Except.ok _ :: rest => rowWarnings rest
  | Except.error _ :: rest => 1 + rowWarnings rest

/-- `Quotes::from_path` from `src/imp.rs`: `let file =
fs::File::open(path)?;` aborts with the open error; otherwise every row the
reader yields is processed by the row loop and the collected vector is
returned wrapped in `Quotes`, always `Ok`.  The filesystem is abstracted
into what opening the path yields: an open error, or the per-row results
the csv reader produces for the opened file. -/
def from_path (file : Arrive RowResults) : Arrive Quotes :=
  match file with
  | Except.error e => Except.error e
  | Except.ok rows => Except.ok ⟨readRows rows⟩

/-- The row results that deserialize, as a predicate-style view used to
state what the catalog keeps. -/
def deserialized : Arrive Quote → Option Quote
  | Except.ok q => some q
  | Except.error _ => none

/-- The total number of frames held in the private slices of a set of
workers. -/
def sliceSum (ws : List Imp) : Nat := (ws.map fun w => w.frames.length).sum

/-- A concrete frame used to build sample pools. -/
def frameN (k : Nat) : Frame := ⟨k, 0, 0, 0, 0⟩

/-- A pool of 20 distinct frames. -/
def pool20 : List Frame := (List.range 20).map frameN

/-- A pool of 12 distinct frames. -/
def pool12 : List Frame := (List.range 12).map frameN

/-- A pool of 5 distinct frames. -/
def pool5 : List Frame := (List.range 5).map frameN

/-- An empty quotes catalog. -/
def noQuotes : Quotes := ⟨[]⟩

/-- A supervisor holding 20 frames. -/
def king20 : ImpKing := ⟨pool20, noQuotes⟩

/-- A supervisor holding 12 frames. -/
def king12 : ImpKing := ⟨pool12, noQuotes⟩

/-- A supervisor holding 5 frames. -/
def king5 : ImpKing := ⟨pool5, noQuotes⟩

/-- Two display names for a spawn of two workers. -/
def names2 : List String := ["Ann", "Bea"]

/-- A worker holding a single frame. -/
def imp1 : Imp := ⟨[frameN 0], "Zed", noQuotes⟩

/-- Test whether a message is a `NewWindow` action, used to state that the
empty-slice branch of `Imp::instigate` emits no such action. -/
def isNewWindowMsg : Hijinks → Bool
  | Hijinks.Meddle m =>
    match m.act with
    | Act.NewWindow => true
    | _ => false
  | _ => false

/-- An iteration environment whose mpsc send fails: the coin flips select
`meddle` then `spoil`, and the awaited send returns a send error. -/
def spinFail : Spin :=
  ⟨true, false, Except.error Blame.sendHijinks, Except.ok (), Except.ok [], []⟩

/-- A sample quote row. -/
def qN (k : Nat) : Quote := ⟨none, toString k⟩

/-- Row results for a catalog file with 10 valid rows and 2 malformed
rows. -/
def rows12 : RowResults :=
  ((List.range 5).map fun k => Except.ok (qN k))
    ++ [Except.error Blame.csv]
    ++ ((List.range 5).map fun k => Except.ok (qN (5 + k)))
    ++ [Except.error Blame.csv]

/-- A catalog holding a single quote. -/
def oneQuote : List Quote := [⟨none, "Be"⟩]

theorem takeFrames_spec : ∀ (k : Nat) (drain fr rest : List Frame),
    takeFrames k drain = some (fr, rest) →
    fr.length = k ∧ rest.length + k = drain.length := by
  intro k
  induction k with
  | zero =>
    intro drain fr rest h
    simp only [takeFrames, Option.some.injEq, Prod.mk.injEq] at h
    obtain ⟨h1, h2⟩ := h
    subst h1
    subst h2
    simp
  | succ n ih =>
    intro drain fr rest h
    simp only [takeFrames] at h
    cases hlast : drain.getLast? with
    | none => rw [hlast] at h; simp at h
    | some v =>
      rw [hlast] at h
      cases htk : takeFrames n drain.dropLast with
      | none => rw [htk] at h; simp at h
      | some p =>
        obtain ⟨fr0, rest0⟩ := p
        rw [htk] at h
        simp only [Option.some.injEq, Prod.mk.injEq] at h
        obtain ⟨h1, h2⟩ := h
        subst h1
        subst h2
        obtain ⟨ihl, ihr⟩ := ih drain.dropLast fr0 rest0 htk
        have hne : drain ≠ [] := by
          intro hd
          rw [hd] at hlast
          simp at hlast
        have hpos : 0 < drain.length := List.length_pos.mpr hne
        have hlen : drain.dropLast.length = drain.length - 1 := List.length_dropLast drain
        have hc : (v :: fr0).length = fr0.length + 1 := List.length_cons v fr0
        refine ⟨?_, ?_⟩ <;> omega

theorem impsLoop_sum_le (q : Quotes) : ∀ (names : List String) (drain : List Frame)
    (acc : List Imp),
    sliceSum (impsLoop q names drain acc) ≤ sliceSum acc + drain.length := by
  intro names
  induction names with
  | nil =>
    intro drain acc
    simp [impsLoop]
  | cons name rest ih =>
    intro drain acc
    simp only [impsLoop]
    cases htk : takeFrames FRAMES drain with
    | none => simp [sliceSum]
    | some p =>
      obtain ⟨fr, drain2⟩ := p
      obtain ⟨hfr, hrest⟩ := takeFrames_spec FRAMES drain fr drain2 htk
      have hrec := ih drain2 (acc ++ [⟨fr, name, q⟩])
      simp only [sliceSum, List.map_append, List.sum_append, List.map_cons, List.map_nil,
        List.sum_cons, List.sum_nil] at hrec
      simp only [sliceSum]
      omega

theorem impsLoop_empty_of_lt (q : Quotes) : ∀ (names : List String) (drain : List Frame)
    (acc : List Imp),
    drain.length < names.length * FRAMES → impsLoop q names drain acc = [] := by
  intro names
  induction names with
  | nil =>
    intro drain acc h
    simp at h
  | cons name rest ih =>
    intro drain acc h
    rw [List.length_cons, Nat.succ_mul] at h
    simp only [impsLoop]
    cases htk : takeFrames FRAMES drain with
    | none => simp
    | some p =>
      obtain ⟨fr, drain2⟩ := p
      obtain ⟨hfr, hrest⟩ := takeFrames_spec FRAMES drain fr drain2 htk
      exact ih drain2 (acc ++ [⟨fr, name, q⟩]) (by omega)

theorem impsLoop_mem_len (q : Quotes) : ∀ (names : List String) (drain : List Frame)
    (acc : List Imp),
    (∀ w ∈ acc, w.frames.length = FRAMES) →
    ∀ w ∈ impsLoop q names drain acc, w.frames.length = FRAMES := by
  intro names
  induction names with
  | nil =>
    intro drain acc hacc
    simpa [impsLoop] using hacc
  | cons name rest ih =>
    intro drain acc hacc w hw
    simp only [impsLoop] at hw
    cases htk : takeFrames FRAMES drain with
    | none => rw [htk] at hw; simp at hw
    | some p =>
      obtain ⟨fr, drain2⟩ := p
      rw [htk] at hw
      obtain ⟨hfr, _⟩ := takeFrames_spec FRAMES drain fr drain2 htk
      refine ih drain2 (acc ++ [⟨fr, name, q⟩]) ?_ w hw
      intro u hu
      rcases List.mem_append.mp hu with hu | hu
      · exact hacc u hu
      · rw [List.mem_singleton.mp hu]
        exact hfr

/-- Claim C1 (corrected), counterexample: a supervisor with 12 pooled
frames receives a single `ResourceRequest` (`Hijinks::Filch`).  The claim
requires the receive loop to pop `min(K, 12) = 10` frames (leaving 2) and
push them through the reply channel exactly once; instead `listen` leaves
the pool at 12 frames, sends nothing on any reply channel, and forwards
the request itself to the event-loop proxy. -/
theorem listen_filch_cex :
    (listen king12 [Hijinks.Filch 0] []).king.frames.length = 12
    ∧ (listen king12 [Hijinks.Filch 0] []).replies = []
    ∧ (listen king12 [Hijinks.Filch 0] []).forwarded = [Hijinks.Filch 0] :=
  ⟨rfl, rfl, rfl⟩

/-- Claim C1 (corrected), amended: for every message received by
`ImpKing::listen`, `ResourceRequest` included, the supervisor forwards it
unchanged to the event-loop proxy (all of them, in order, while the proxy
accepts); it never removes frames from its pool and never sends on any
request's reply channel — replying is left to the application's event
handler on the far side of the proxy. -/
theorem listen_forwards (king : ImpKing) (inbox : List Hijinks) (oks : List Bool) :
    (listen king inbox oks).king = king
    ∧ (listen king inbox oks).replies = []
    ∧ (listen king inbox []).forwarded = inbox
    ∧ (listen king inbox []).result = Except.ok () := by
  refine ⟨?_, ?_, ?_, ?_⟩
  · induction inbox generalizing oks with
    | nil => rfl
    | cons h rest ih =>
      simp only [listen]
      cases hok : oks.headD true <;> simp [ih]
  · induction inbox generalizing oks with
    | nil => rfl
    | cons h rest ih =>
      simp only [listen]
      cases hok : oks.headD true <;> simp [ih]
  · induction inbox with
    | nil => rfl
    | cons h rest ih =>
      simp only [listen, List.headD, List.tail]
      simp [ih]
  · induction inbox with
    | nil => rfl
    | cons h rest ih =>
      simp only [listen, List.headD, List.tail]
      simp [ih]

/-- Claim C2 (corrected), counterexample: spawning 2 workers with
`FRAMES = 10` from a supervisor constructed with a pool of 20 frames
leaves the pool at its full 20 frames while the workers jointly hold 20
more — 40 frames in flight against a construction size of 20, because
`ImpKing::imps` drains a clone of the pool (`&self` receiver) and never
removes the handed-out frames from it. -/
theorem conservation_cex :
    king20.frames.length = 20
    ∧ (imps king20 names2).1.frames.length
        + sliceSum (imps king20 names2).2 = 40 := by
  exact ⟨rfl, by decide⟩

/-- Claim C2 (corrected), amended: spawning never mutates the supervisor
(the pool keeps its construction size — `imps` drains a clone), and the
frames handed to the workers of a single spawn call total at most the
construction pool size (within one call no frame is given to two workers);
the conservation bound `pool + slices ≤ construction size` itself fails,
since the handed-out frames are duplicates of pooled ones. -/
theorem spawn_slices_le_pool (king : ImpKing) (names : List String) :
    (imps king names).1 = king
    ∧ sliceSum (imps king names).2 ≤ king.frames.length := by
  refine ⟨rfl, ?_⟩
  have h := impsLoop_sum_le king.quotes names king.frames []
  simpa [imps, sliceSum] using h

/-- Claim C3 (corrected), counterexample: with a pool of 20 frames and
`perWorker = FRAMES = 10`, spawning 2 workers succeeds but leaves the pool
at 20 frames (the claim requires 0), and a subsequent spawn of 1 more
worker succeeds with a fully provisioned worker (the claim requires it to
fail fast with no worker). -/
theorem spawn_decrement_cex :
    (imps king20 names2).2.length = 2
    ∧ (imps king20 names2).1.frames.length = 20
    ∧ (imps (imps king20 names2).1 ["Cal"]).2.length = 1 := by
  refine ⟨by decide, rfl, by decide⟩

/-- Claim C3 (corrected), amended: after a successful spawn of `count`
workers each worker holds exactly `K = FRAMES` frames popped from a clone
of the pool, and the pool itself is unchanged — spawning 2 workers with
`perWorker = 10` from a pool of 20 leaves the pool with 20 frames, and a
subsequent spawn of 1 further worker succeeds, producing one worker
holding 10 frames. -/
theorem spawn_scenario :
    ((imps king20 names2).2.map fun w => w.frames.length) = [10, 10]
    ∧ (imps king20 names2).1 = king20
    ∧ ((imps (imps king20 names2).1 ["Cal"]).2.map fun w => w.frames.length) = [10] := by
  refine ⟨by decide, rfl, by decide⟩

/-- Claim C4 (confirmed): if the pool holds fewer than
`count * K = names.length * FRAMES` frames then `ImpKing::imps` returns
the empty vector rather than partially provisioning, and every worker of
any returned set holds exactly `FRAMES` frames — never fewer. -/
theorem imps_fail_fast (king : ImpKing) (names : List String) :
    (king.frames.length < names.length * FRAMES → (imps king names).2 = [])
    ∧ ∀ w ∈ (imps king names).2, w.frames.length = FRAMES := by
  constructor
  · intro h
    exact impsLoop_empty_of_lt king.quotes names king.frames [] h
  · intro w hw
    refine impsLoop_mem_len king.quotes names king.frames [] ?_ w hw
    intro u hu
    simp at hu

/-- Claim C4, witness: a pool of 5 frames is too small for one worker
needing 10, so the spawn returns no workers. -/
theorem imps_fail_fast_witness : (imps king5 ["Ann"]).2 = [] :=
  (imps_fail_fast king5 ["Ann"]).1 (by decide)

/-- Claim C5 (confirmed): `Imp::instigate` pops one frame from the private
slice (`Vec::pop` takes the last element); when a frame was present it
sends exactly one `Meddle` message carrying `Act::NewWindow`, the popped
frame, and the title `format!("{}'s Window", name)`; when the slice was
empty it behaves as `Imp::filch` on the emptied state — in particular it
sends no `NewWindow` action. -/
theorem instigate_spec (imp : Imp) (sendRes filchSendRes : Arrive Unit)
    (filchReply : Arrive (List Frame)) :
    (∀ f, imp.frames.getLast? = some f →
      instigate imp sendRes filchSendRes filchReply =
        ({ imp with frames := imp.frames.dropLast },
          [Hijinks.Meddle ⟨Act.NewWindow, some f, windowTitle imp.name⟩], sendRes))
    ∧ (imp.frames = [] →
      instigate imp sendRes filchSendRes filchReply =
        filch { imp with frames := [] } filchSendRes filchReply
      ∧ ((instigate imp sendRes filchSendRes filchReply).2.1.all
          fun m => !(isNewWindowMsg m)) = true) := by
  constructor
  · intro f hf
    simp [instigate, hf]
  · intro hf
    have h1 : instigate imp sendRes filchSendRes filchReply =
        filch { imp with frames := [] } filchSendRes filchReply := by
      simp [instigate, hf]
    refine ⟨h1, ?_⟩
    rw [h1]
    cases filchReply <;> rfl

/-- Claim C5, witness: a worker holding one frame instigates, popping that
frame and sending the single `NewWindow` action built from it. -/
theorem instigate_witness :
    instigate imp1 (Except.ok ()) (Except.ok ()) (Except.ok []) =
      ({ imp1 with frames := [] },
        [Hijinks.Meddle ⟨Act.NewWindow, some (frameN 0), windowTitle imp1.name⟩],
        Except.ok ()) :=
  (instigate_spec imp1 (Except.ok ()) (Except.ok ()) (Except.ok [])).1 (frameN 0) rfl

theorem readRows_eq (rows : RowResults) :
    readRows rows = rows.filterMap deserialized := by
  induction rows with
  | nil => rfl
  | cons r rest ih => cases r <;> simp [readRows, deserialized, List.filterMap_cons, ih]

theorem rowWarnings_add (rows : RowResults) :
    rowWarnings rows + (rows.filterMap deserialized).length = rows.length := by
  induction rows with
  | nil => rfl
  | cons r rest ih =>
    cases r <;> simp [rowWarnings, deserialized, List.filterMap_cons] <;> omega

/-- Claim C6 (confirmed): `Quotes::from_path` fails exactly when opening
the file fails; for every readable file it succeeds, the catalog keeps
exactly the rows that deserialize (malformed rows are skipped one by one),
and the warnings emitted plus the rows kept account for every row of the
file. -/
theorem from_path_spec (file : Arrive RowResults) :
    ((∃ e, from_path file = Except.error e) ↔ (∃ e, file = Except.error e))
    ∧ ∀ rows, file = Except.ok rows →
        from_path file = Except.ok ⟨rows.filterMap deserialized⟩
        ∧ rowWarnings rows + (rows.filterMap deserialized).length = rows.length := by
  cases file with
  | error e =>
    refine ⟨?_, ?_⟩
    · simp [from_path]
    · intro rows h
      cases h
  | ok rows =>
    refine ⟨?_, ?_⟩
    · simp [from_path]
    · intro rows2 h
      injection h with h
      subst h
      exact ⟨by simp [from_path, readRows_eq], rowWarnings_add rows⟩

/-- Claim C6, witness: a file whose reader yields 10 valid rows and 2
malformed rows produces a catalog of exactly 10 entries and 2 warnings. -/
theorem from_path_witness :
    from_path (Except.ok rows12) = Except.ok ⟨rows12.filterMap deserialized⟩
    ∧ (rows12.filterMap deserialized).length = 10
    ∧ rowWarnings rows12 = 2 := by
  have h := (from_path_spec (Except.ok rows12)).2 rows12 rfl
  exact ⟨h.1, by decide, by decide⟩

/-- Claim C7 (confirmed): whenever the `Imp::hijinks` loop returns, the
returned value is an error propagated from a failed send or receive (it is
never `Ok`), and that return value makes the task body of
`ImpKing::spawn_imps` break out of its loop — the worker exits without
retry. -/
theorem hijinks_never_ok (imp : Imp) (env : Nat → Spin) (fuel : Nat) (r : Arrive Unit)
    (h : hijinks imp env fuel = some r) :
    (∃ e, r = Except.error e) ∧ impTaskBreaks r = true := by
  induction fuel generalizing imp env r with
  | zero => simp [hijinks] at h
  | succ n ih =>
    simp only [hijinks] at h
    cases hstep : hijinksStep imp (env 0) with
    | none =>
      rw [hstep] at h
      simp at h
    | some t =>
      obtain ⟨imp2, sent, r2⟩ := t
      rw [hstep] at h
      cases r2 with
      | error e =>
        simp only [Option.some.injEq] at h
        exact ⟨⟨e, h.symm⟩, by rw [← h]; rfl⟩
      | ok u =>
        exact ih imp2 (fun i => env (i + 1)) r h

/-- Claim C7, witness: with an environment whose mpsc send fails on the
first iteration, `hijinks` returns that send error, and the spawned task's
loop breaks. -/
theorem hijinks_never_ok_witness :
    (∃ e, (Except.error Blame.sendHijinks : Arrive Unit) = Except.error e)
    ∧ impTaskBreaks (Except.error Blame.sendHijinks) = true :=
  hijinks_never_ok imp1 (fun _ => spinFail) 1 (Except.error Blame.sendHijinks) rfl

/-- Claim C8 (confirmed): the pause taken after an emitted message is the
`u16` draw interpreted as milliseconds, hence at most 65,535 milliseconds
for every possible draw. -/
theorem pause_bounded (draw : Nat) : pauseMillis draw ≤ 65535 := by
  have h : draw % 65536 < 65536 := Nat.mod_lt draw (by omega)
  simp only [pauseMillis]
  omega

/-- Claim C9 (confirmed): the rejection loop of `Imp::vandalize` never
accepts a draw when the catalog is empty (it runs forever: every finite
prefix of draws is rejected); every accepted index is strictly below the
catalog length, so the subsequent indexing into the quotes vector stays in
bounds; for a non-empty catalog the loop terminates as soon as the draw
stream produces an in-range value (which a fair `u16` stream eventually
does, since index 0 is always in range); and `vandalize` diverges exactly
when the rejection loop does. -/
theorem vandalIdx_spec (quotes : List Quote) (draws : List Nat) :
    (quotes = [] → vandalIdx quotes.length draws = none)
    ∧ (∀ idx, vandalIdx quotes.length draws = some idx → idx < quotes.length)
    ∧ (quotes ≠ [] → (∃ d ∈ draws, d % 65536 < quotes.length) →
        ∃ idx, vandalIdx quotes.length draws = some idx)
    ∧ ∀ (imp : Imp) (sendRes : Arrive Unit), imp.quotes.val = quotes →
        ((vandalize imp draws sendRes).isNone ↔ (vandalIdx quotes.length draws).isNone) := by
  refine ⟨?_, ?_, ?_, ?_⟩
  · intro hq
    subst hq
    induction draws with
    | nil => rfl
    | cons d rest ih => simpa [vandalIdx] using ih
  · intro idx
    induction draws with
    | nil => intro h; cases h
    | cons d rest ih =>
      intro h
      by_cases hd : d % 65536 < quotes.length
      · simp only [vandalIdx, if_pos hd, Option.some.injEq] at h
        omega
      · simp only [vandalIdx, if_neg hd] at h
        exact ih h
  · intro hq hex
    induction draws with
    | nil => simp at hex
    | cons d rest ih =>
      by_cases hd : d % 65536 < quotes.length
      · exact ⟨d % 65536, by simp [vandalIdx, if_pos hd]⟩
      · obtain ⟨d0, hmem, hlt⟩ := hex
        rcases List.mem_cons.mp hmem with heq | hmem0
        · subst heq
          exact absurd hlt hd
        · obtain ⟨idx, hidx⟩ := ih ⟨d0, hmem0, hlt⟩
          exact ⟨idx, by simp [vandalIdx, if_neg hd, hidx]⟩
  · intro imp sendRes hq
    cases h : vandalIdx quotes.length draws <;>
      simp [vandalize, hq, h]

/-- Claim C9, witness: with a one-quote catalog, a draw stream whose first
value is out of range and whose second is 0 is accepted at index 0. -/
theorem vandalIdx_witness :
    ∃ idx, vandalIdx oneQuote.length [70000, 0] = some idx :=
  (vandalIdx_spec oneQuote [70000, 0]).2.2.1 (by decide) ⟨0, by decide, by decide⟩

/-- Claim C10 (confirmed): `Imp::filch` discards the outcome of the mpsc
send (`let _ = ...`), so its behavior is identical for any send outcome
and a closed inbound channel never surfaces as a send error; it returns
an error exactly when awaiting the one-shot reply fails, propagating that
receive error; and on success it replaces the worker's entire private
slice with the received sequence and returns `Ok(())`. -/
theorem filch_spec (imp : Imp) (s s2 : Arrive Unit) (reply : Arrive (List Frame)) :
    filch imp s reply = filch imp s2 reply
    ∧ (∀ e, (filch imp s reply).2.2 = Except.error e → reply = Except.error e)
    ∧ ∀ frames, reply = Except.ok frames →
        (filch imp s reply).1.frames = frames
        ∧ (filch imp s reply).2.2 = Except.ok () := by
  refine ⟨rfl, ?_, ?_⟩
  · intro e h
    cases reply with
    | ok frames => simp [filch] at h
    | error e2 =>
      simp [filch] at h
      rw [h]
  · intro frames h
    subst h
    exact ⟨rfl, rfl⟩

/-- Claim C10, witness: a successful reply of one frame replaces the
worker's slice with exactly that sequence, whatever happened to the
discarded send. -/
theorem filch_witness :
    (filch imp1 (Except.ok ()) (Except.ok [frameN 3])).1.frames = [frameN 3]
    ∧ (filch imp1 (Except.ok ()) (Except.ok [frameN 3])).2.2 = Except.ok () :=
  (filch_spec imp1 (Except.ok ()) (Except.ok ()) (Except.ok [frameN 3])).2.2 [frameN 3] rfl

end Tardy
